import Mathlib

/-!
Shallow embedding of the attribution allocation engine of
`marketing_attribution_models/MAM.py` (class `MAM`), together with theorems
settling the specification claims about it.

Numbers are modelled as rationals.  A per-journey record carries the ordered
channel sequence, the conversion flag and the conversion value, mirroring the
series `self.channels`, `self.journey_with_conv` and `self.conversion_value`.
Numpy divisions whose result would be NaN or infinite (division by a zero sum)
are modelled with `Option`: `none` stands for the non-finite outcome.
-/

namespace MAMSpec

/-- One journey of the journey collection: ordered channel labels, whether the
journey converted, and its conversion value. -/
structure Journey where
  channels : List String
  converted : Bool
  conversionValue : ℚ

/-- Integer cast of the conversion flag, as in
`self.journey_with_conv.apply(int)`. -/
def convInd (j : Journey) : ℚ := if j.converted then 1 else 0

/-- First-click weight vector times value and flag, from
`attribution_first_click`: `np.asarray([1] + [0] * (len(channels) - 1))`
multiplied by `conversion_value` and the integer conversion flag. -/
def firstClickVector (j : Journey) : List ℚ :=
  (((1 : ℚ) :: List.replicate (j.channels.length - 1) 0)).map
    (fun w => w * j.conversionValue * convInd j)

/-- Last-click weight vector times value and flag, from
`attribution_last_click`: `np.asarray([0] * (len(channels) - 1) + [1])`
multiplied by `conversion_value` and the integer conversion flag. -/
def lastClickVector (j : Journey) : List ℚ :=
  ((List.replicate (j.channels.length - 1) (0 : ℚ)) ++ [1]).map
    (fun w => w * j.conversionValue * convInd j)

/-- Python `max` over a list of naturals, as `list.foldl max 0`; on the
nonempty nonnegative index lists used by `attribution_last_click_non` this
agrees with the Python builtin. -/
def pyMax (l : List ℕ) : ℕ := l.foldl max 0

/-- Enumeration of a list with positions, Python `enumerate`. -/
def pyEnumerate (canais : List String) : List (ℕ × String) :=
  (List.range canais.length).zip canais

/-- Index list of `attribution_last_click_non`:
`[i if canal != but_not_this_channel else 0 for i, canal in enumerate(canais)]`. -/
def lastClickNonIdxs (x : String) (canais : List String) : List ℕ :=
  (pyEnumerate canais).map (fun p => if p.2 ≠ x then p.1 else 0)

/-- Weight vector of `attribution_last_click_non`:
`[1 if i == max(...) else 0 for i, canal in enumerate(canais)]`. -/
def lastClickNonWeights (x : String) (canais : List String) : List ℚ :=
  (pyEnumerate canais).map
    (fun p => if p.1 = pyMax (lastClickNonIdxs x canais) then 1 else 0)

/-- Last-click-excluding-channel credit vector: the weight vector multiplied by
`conversion_value` and the integer conversion flag. -/
def lastClickNonVector (x : String) (j : Journey) : List ℚ :=
  (lastClickNonWeights x j.channels).map
    (fun w => w * j.conversionValue * convInd j)

/-- Linear credit vector, from `attribution_linear`:
`(conversion_value * flag / channels_count).apply(lambda x: [x]) * channels_count`,
that is `channels_count` copies of the per-touch share. -/
def linearVector (j : Journey) : List ℚ :=
  List.replicate j.channels.length
    (j.conversionValue * convInd j / (j.channels.length : ℚ))

/-- Position-based weight vector, from `attribution_position_based` with the
triple `list_positions_first_middle_last = [f, m, l]`.  Note that the source
uses `list_positions_first_middle_last[0]` for BOTH the first and the last
entry of the length-three-or-more branch. -/
def positionBasedWeights (f m l : ℚ) (canais : List String) : List ℚ :=
  if canais.length = 1 then [1]
  else if canais.length = 2 then [f + m / 2, l + m / 2]
  else [f] ++
    List.replicate (canais.length - 2) (m / ((canais.length - 2 : ℕ) : ℚ)) ++
    [f]

/-- Position-based credit vector: weights times `conversion_value` times the
integer conversion flag. -/
def positionBasedVector (f m l : ℚ) (j : Journey) : List ℚ :=
  (positionBasedWeights f m l j.channels).map
    (fun w => w * j.conversionValue * convInd j)

/-- Raw time-decay weight of one touch:
`np.exp(math.log(decay_over_time) * np.floor(time_till_conv / frequency))`,
that is `decay_over_time` raised to the floored quotient. -/
def timeDecayRawWeight (d freq : ℚ) (t : ℚ) : ℚ := d ^ (Int.floor (t / freq))

/-- Normalized time-decay weights of one journey: each raw weight divided by
the sum of the raw weights of the journey. -/
def timeDecayWeights (d freq : ℚ) (ts : List ℚ) : List ℚ :=
  ts.map (fun t =>
    timeDecayRawWeight d freq t / (ts.map (timeDecayRawWeight d freq)).sum)

/-- Time-decay credit vector of one journey: normalized weights times
`conversion_value` times the integer conversion flag. -/
def timeDecayVector (d freq : ℚ) (ts : List ℚ) (j : Journey) : List ℚ :=
  (timeDecayWeights d freq ts).map (fun w => w * j.conversionValue * convInd j)

/-- Raw per-journey Markov vector, from `attribution_markov`:
`[chmap[x] * row[conversion_value_col] for x in row[channels_col]]`. -/
def markovRawVector (chmap : String → ℚ) (j : Journey) : List ℚ :=
  j.channels.map (fun x => chmap x * j.conversionValue)

/-- Per-journey renormalization of `attribution_markov`, line
`channels_value.apply(lambda x: list(np.array(x) / sum(x)))`.  The division is
not guarded: on a zero sum numpy yields NaN or infinite entries, modelled here
as `none`. -/
def markovRenormalize (xs : List ℚ) : Option (List ℚ) :=
  if xs.sum = 0 then none else some (xs.map (fun x => x / xs.sum))

/-! Markov transition-matrix engine.  A matrix of dimension `size` is a
function `ℕ → ℕ → ℚ`; the state vocabulary is
`[(inicio)] + sorted(channels) + [(null), (conversion)]`, so index `0` is the
start state, index `size - 2` the null state and index `size - 1` the
conversion state.  The eigendecomposition-based infinite matrix power
(`power_to_infinity`, floating point) is kept abstract as a parameter
`powerInf`; everything around it is embedded from the source. -/

/-- Row sum of a matrix, as `matrix.sum(axis=1)` restricted to row `i`. -/
def rowSum (size : ℕ) (M : ℕ → ℕ → ℚ) (i : ℕ) : ℚ :=
  ((List.range size).map (M i)).sum

/-- Row normalization from `normalize_rows`:
`mean = matrix.sum(axis=1); mean = np.where(mean == 0, 1, mean); matrix / mean`. -/
def normalizeRows (size : ℕ) (M : ℕ → ℕ → ℚ) : ℕ → ℕ → ℚ :=
  fun i jj => M i jj / (if rowSum size M i = 0 then 1 else rowSum size M i)

/-- Absorption probability from `calc_total_conversion`: normalize the rows,
raise to infinite power, and read the `(start, conversion)` entry
`infinity_matrix[0, -1]`. -/
def calcTotalConversion (powerInf : (ℕ → ℕ → ℚ) → ℕ → ℕ → ℚ)
    (size : ℕ) (M : ℕ → ℕ → ℚ) : ℚ :=
  powerInf (normalizeRows size M) 0 (size - 1)

/-- Counterfactual matrix built inside `removal_effect` for channel index `c`:
`temp[:, -2] = temp[:, -2] + temp[:, column]; temp[:, column] = 0`, that is the
column of `c` is added into the null column and then zeroed. -/
def counterfactualMatrix (size c : ℕ) (M : ℕ → ℕ → ℚ) : ℕ → ℕ → ℚ :=
  fun i jj =>
    if jj = size - 2 then M i (size - 2) + M i c
    else if jj = c then 0
    else M i jj

/-- Entry `c` of the `conversions` array of `removal_effect`: filled by the
loop `for column in range(1, size - 2)` with the counterfactual absorption,
and left at its `np.zeros` value outside that range. -/
def conversionsEntry (powerInf : (ℕ → ℕ → ℚ) → ℕ → ℕ → ℚ)
    (size : ℕ) (M : ℕ → ℕ → ℚ) (c : ℕ) : ℚ :=
  if 1 ≤ c ∧ c < size - 2 then
    calcTotalConversion powerInf size (counterfactualMatrix size c M)
  else 0

/-- Removal effect of channel index `c`, from
`1 - (conversions / conversion_orig)`.  The division by the original
absorption is not guarded in the source; a zero denominator yields a
non-finite numpy value, modelled as `none`. -/
def removalEffectEntry (powerInf : (ℕ → ℕ → ℚ) → ℕ → ℕ → ℚ)
    (size : ℕ) (M : ℕ → ℕ → ℚ) (c : ℕ) : Option ℚ :=
  if calcTotalConversion powerInf size M = 0 then none
  else some (1 - conversionsEntry powerInf size M c /
    calcTotalConversion powerInf size M)

/-- Modelled from the spec: the counterfactual matrix as the specification
words it, namely the original matrix with the OUTGOING edges of channel `c`
(its row) redirected entirely into the null state.  Written only to be
compared with `counterfactualMatrix`, which is embedded from the source. -/
def counterfactualOutgoing (size c : ℕ) (M : ℕ → ℕ → ℚ) : ℕ → ℕ → ℚ :=
  fun i jj =>
    if i = c then (if jj = size - 2 then rowSum size M c else 0)
    else M i jj

/-- Concrete four-state matrix (start, one channel `A`, null, conversion) with
the transitions `start -> A` and `A -> conversion`, used to separate the two
counterfactual constructions. -/
def exampleMatrixC2 : ℕ → ℕ → ℚ :=
  fun i jj =>
    if i = 0 ∧ jj = 1 then 1
    else if i = 1 ∧ jj = 3 then 1
    else 0

/-! Channel aggregate table (`self.group_by_channels_models`) and the pandas
operations used to grow it.  A table is a list of model column names plus one
row per channel, the row values aligned with the column names.  Pandas
`groupby` sorts its keys and `merge(how="outer")` sorts the union of the join
keys, renames clashing column names with the `_x` and `_y` suffixes, and the
subsequent `.fillna(0)` fills missing entries with zero. -/

/-- Insertion of a string into a sorted list of strings. -/
def insertSorted (a : String) : List String → List String
  | [] => [a]
  | b :: t => if a ≤ b then a :: b :: t else b :: insertSorted a t

/-- Insertion sort on string lists, standing for the lexicographic key
ordering pandas applies to group keys and outer-join keys. -/
def sortStrings (l : List String) : List String := l.foldr insertSorted []

/-- Sorted deduplicated key list. -/
def sortedKeys (l : List String) : List String := (sortStrings l).dedup

/-- Value of `frame` at channel `k`, zero when absent (the `.fillna(0)`). -/
def lookupVal (frame : List (String × ℚ)) (k : String) : ℚ :=
  match frame.find? (fun p => p.1 = k) with
  | some p => p.2
  | none => 0

/-- Row of an existing table at channel `k`; a channel absent from the table
gets a zero-filled row (the `.fillna(0)` after the outer merge). -/
def lookupRow (rows : List (String × List ℚ)) (k : String) (width : ℕ) : List ℚ :=
  match rows.find? (fun p => p.1 = k) with
  | some p => p.2
  | none => List.replicate width 0

/-- Channel aggregate table: model column names and per-channel rows. -/
structure AggTable where
  colNames : List String
  rows : List (String × List ℚ)

/-- Pandas `groupby("channels")["value"].sum()` over exploded
(channel, credit) pairs: sorted unique keys, each with the sum of its
values. -/
def groupSum (pairs : List (String × ℚ)) : List (String × ℚ) :=
  (sortedKeys (pairs.map Prod.fst)).map
    (fun k => (k, ((pairs.filter (fun p => p.1 = k)).map Prod.snd).sum))

/-- The outer merge of `group_by_results_function`:
`pd.merge(self.group_by_channels_models, frame, how="outer", on=["channels"]).fillna(0)`.
Clashing column names are suffixed `_x` (left) and `_y` (right); the join keys
are the sorted union of both channel sets; missing entries become zero. -/
def mergeOuter (t : AggTable) (modelName : String)
    (frame : List (String × ℚ)) : AggTable :=
  { colNames :=
      (t.colNames.map (fun cn => if cn = modelName then cn ++ "_x" else cn)) ++
      [if modelName ∈ t.colNames then modelName ++ "_y" else modelName]
    rows :=
      (sortedKeys (t.rows.map Prod.fst ++ frame.map Prod.fst)).map
        (fun k => (k, lookupRow t.rows k t.colNames.length ++ [lookupVal frame k])) }

/-- The table update of `group_by_results_function`: merge into the existing
table when `self.group_by_channels_models` is already a data frame, otherwise
start a fresh single-column table. -/
def groupByResults (t : Option AggTable) (modelName : String)
    (frame : List (String × ℚ)) : AggTable :=
  match t with
  | some tbl => mergeOuter tbl modelName frame
  | none => { colNames := [modelName], rows := frame.map (fun p => (p.1, [p.2])) }

/-- Exploded (channel, credit) pairs of all journeys, as built by
`channels_list.extend` and `values_list.extend` in
`group_by_results_function`. -/
def explodedPairs (js : List Journey) (vals : List (List ℚ)) :
    List (String × ℚ) :=
  ((js.map Journey.channels).zip vals).flatMap (fun p => p.1.zip p.2)

/-- Per-model channel frame: exploded pairs grouped and summed by channel. -/
def modelFrame (js : List Journey) (vals : List (List ℚ)) :
    List (String × ℚ) :=
  groupSum (explodedPairs js vals)

/-- Model name used by `attribution_linear`. -/
def linearModelName : String := "attribution_linear_heuristic"

/-- One run of the linear model against the aggregate table, as performed by
`attribution_linear` with `group_by_channels_models=True`. -/
def runLinear (t : Option AggTable) (js : List Journey) : AggTable :=
  groupByResults t linearModelName (modelFrame js (js.map linearVector))

/-- Concrete converted two-touch journey used as a witness input. -/
def journeyC1 : Journey :=
  { channels := ["A", "B"], converted := true, conversionValue := 10 }

/-- Journey collection used to exercise the aggregate table. -/
def journeysC3 : List Journey :=
  [{ channels := ["A"], converted := true, conversionValue := 1 },
   { channels := ["B"], converted := true, conversionValue := 1 }]

/-! Dispatch logic of `attribution_all_models` and the validation guard of
`attribution_markov`. -/

/-- Model names guarded by `attribution_all_models` in the heuristic block, in
source order. -/
def heuristicModelNames : List String :=
  ["attribution_last_click", "attribution_last_click_non",
   "attribution_first_click", "attribution_linear",
   "attribution_position_based", "attribution_time_decay"]

/-- Model names guarded by `attribution_all_models` in the algorithmic block,
in source order. -/
def algorithmicModelNames : List String :=
  ["attribution_shapley", "attribution_markov"]

/-- Truth value of the `heuristic` flag set from `model_type`. -/
def heuristicFlag (modelType : String) : Bool :=
  modelType = "all" || modelType = "heuristic"

/-- Truth value of the `algorithmic` flag set from `model_type`: every value
other than `"heuristic"` enables the algorithmic block. -/
def algorithmicFlag (modelType : String) : Bool :=
  modelType = "all" || !(modelType = "heuristic")

/-- Candidate models of a run given `model_type`. -/
def modelPool (modelType : String) : List String :=
  (if heuristicFlag modelType then heuristicModelNames else []) ++
  (if algorithmicFlag modelType then algorithmicModelNames else [])

/-- The per-model guard `if exclude_models and name not in exclude_models:`
with Python truthiness: `None` and the empty list are falsy. -/
def shouldRunModel (excludeModels : Option (List String)) (name : String) : Bool :=
  match excludeModels with
  | none => false
  | some l => !l.isEmpty && !l.contains name

/-- Names of the models `attribution_all_models` actually executes. -/
def modelsRun (modelType : String) (excludeModels : Option (List String)) :
    List String :=
  (modelPool modelType).filter (fun name => shouldRunModel excludeModels name)

/-- State effect of `attribution_all_models` on the aggregate table: each
executed model applies its table effect in order, and the method returns
`self.group_by_channels_models`. -/
def attributionAllModels (modelType : String)
    (excludeModels : Option (List String))
    (effects : String → Option AggTable → Option AggTable)
    (t : Option AggTable) : Option AggTable :=
  (modelsRun modelType excludeModels).foldl (fun acc name => effects name acc) t

/-- Allowed `conversion_value_type` values of `attribution_markov`. -/
def allowedConversionValueTypes : List String :=
  ["binary", "integer", "frequency", "monetary"]

/-- Error message raised by `attribution_markov` for an unsupported
`conversion_value_type`. -/
def conversionValueTypeError : String :=
  "conversion_value_type must be one of the following: " ++
    String.intercalate ", " allowedConversionValueTypes

/-- Validation prologue of `attribution_markov`: the `conversion_value_type`
check precedes every other statement of the method, so the remainder is an
arbitrary state transformer `rest` that is only reached on a valid value.  On
an invalid value the method raises a `ValueError` and the state is returned
untouched. -/
def attributionMarkovGuard {α β : Type} (cvt : String) (rest : α → α × β)
    (s : α) : α × Except String β :=
  if cvt ∈ allowedConversionValueTypes then
    ((rest s).1, Except.ok (rest s).2)
  else
    (s, Except.error conversionValueTypeError)

/-- Diagnostic printed by `attribution_time_decay` when `self.time_till_conv`
is `None`. -/
def timeDecayDiagnostic : String :=
  "time_till_conv is None, attribution_time_decay model will not work"

/-- The body of `attribution_time_decay`: when `self.time_till_conv` is
`None` the source prints the diagnostic, skips the whole `else` block, and
then executes `self.__time_decay = (channels_value, frame)` even though both
locals were only ever assigned inside the `else` block, so Python raises an
`UnboundLocalError`.  The first component collects printed diagnostics, the
second the outcome. -/
def attributionTimeDecayRun (d freq : ℚ) (js : List Journey)
    (timeTillConv : Option (List (List ℚ))) :
    List String × Except String (List (List ℚ)) :=
  match timeTillConv with
  | none =>
      ([timeDecayDiagnostic],
       Except.error
         "UnboundLocalError: local variable referenced before assignment")
  | some ts =>
      ([], Except.ok ((ts.zip js).map (fun p => timeDecayVector d freq p.1 p.2)))

/-! Shapley coalition membership columns. -/

/-- Python substring containment `a in b` on strings: some contiguous slice of
`b` equals `a`. -/
def pyIn (a b : String) : Bool :=
  (List.range (b.data.length + 1)).any
    (fun i => ((b.data.drop i).take a.data.length) == a.data)

/-- Boolean membership column of the `coalitions` matrix:
`df_temp.combinations.apply(lambda channels: any(channel in s for s in channels))`,
substring containment over the member strings of the combination. -/
def coalitionColumn (channel : String) (combination : List String) : Bool :=
  combination.any (fun s => pyIn channel s)

end MAMSpec

namespace MAMSpec

/-! Helper lemmas about list sums. -/

theorem sum_map_scale (l : List ℚ) (a b : ℚ) :
    (l.map (fun w => w * a * b)).sum = l.sum * (a * b) := by
  induction l with
  | nil => simp
  | cons x t ih =>
    simp only [List.map_cons, List.sum_cons, ih]
    ring

theorem sum_map_div (l : List ℚ) (s : ℚ) :
    (l.map (fun x => x / s)).sum = l.sum / s := by
  induction l with
  | nil => simp
  | cons x t ih => simp [ih, add_div]

theorem sum_pos_of_mem_pos (l : List ℚ) (hne : l ≠ [])
    (h : ∀ x ∈ l, 0 < x) : 0 < l.sum := by
  induction l with
  | nil => exact absurd rfl hne
  | cons x t ih =>
    rcases t with _ | ⟨y, t2⟩
    · simpa using h x (by simp)
    · have hx : 0 < x := h x (by simp)
      have ht : 0 < (y :: t2).sum := by
        refine ih (by simp) ?_
        intro z hz
        exact h z (by simp [hz])
      simpa using add_pos hx ht

theorem foldl_max_lt (l : List ℕ) (acc n : ℕ) (h1 : acc < n)
    (h2 : ∀ x ∈ l, x < n) : l.foldl max acc < n := by
  induction l generalizing acc with
  | nil => simpa using h1
  | cons a t ih =>
    refine ih (max acc a) (max_lt h1 (h2 a (by simp))) ?_
    intro x hx
    exact h2 x (by simp [hx])

theorem sum_range_single (n k : ℕ) (x : ℚ) (hk : k < n) :
    ((List.range n).map (fun i => if i = k then x else 0)).sum = x := by
  induction n with
  | zero => omega
  | succ p ih =>
    rw [List.range_succ, List.map_append, List.sum_append]
    rcases Nat.lt_succ_iff_lt_or_eq.mp hk with hlt | heq
    · have hp : p ≠ k := by omega
      simp [ih hlt, hp]
    · subst heq
      have hz : ((List.range k).map (fun i => if i = k then x else 0)).sum = 0 := by
        apply List.sum_eq_zero
        intro y hy
        rcases List.mem_map.mp hy with ⟨i, hi, rfl⟩
        have : i ≠ k := by
          have := List.mem_range.mp hi
          omega
        simp [this]
      simp [hz]

/-! Helper lemmas about the sorted key lists of the aggregate table. -/

theorem mem_insertSorted (a b : String) (l : List String) :
    b ∈ insertSorted a l ↔ b = a ∨ b ∈ l := by
  induction l with
  | nil => simp [insertSorted]
  | cons c t ih =>
    by_cases h : a ≤ c
    · simp [insertSorted, h]
    · simp only [insertSorted, if_neg h, List.mem_cons, ih]
      tauto

theorem mem_sortStrings (a : String) (l : List String) :
    a ∈ sortStrings l ↔ a ∈ l := by
  induction l with
  | nil => simp [sortStrings]
  | cons b t ih =>
    rw [show sortStrings (b :: t) = insertSorted b (sortStrings t) from rfl,
      mem_insertSorted]
    simp [ih]

theorem mem_sortedKeys (a : String) (l : List String) :
    a ∈ sortedKeys l ↔ a ∈ l := by
  rw [sortedKeys, List.mem_dedup, mem_sortStrings]

/-- C5 (amended): only the transition-matrix row normalization is guarded
against a zero divisor: `normalize_rows` replaces a zero row sum with 1, so a
degenerate row is left unchanged.  The Markov per-journey credit-vector
renormalization and the removal-effect ratio divide by their sums unguarded,
and on a zero divisor produce a non-finite numpy result, modelled as
`none`. -/
theorem c5_zero_sum_guards :
    (∀ size (M : ℕ → ℕ → ℚ) i, rowSum size M i = 0 →
      ∀ jj, normalizeRows size M i jj = M i jj) ∧
    (∀ xs : List ℚ, xs.sum = 0 → markovRenormalize xs = none) ∧
    (∀ powerInf size (M : ℕ → ℕ → ℚ) c,
      calcTotalConversion powerInf size M = 0 →
      removalEffectEntry powerInf size M c = none) := by
  refine ⟨?_, ?_, ?_⟩
  · intro size M i h jj
    simp [normalizeRows, h]
  · intro xs h
    simp [markovRenormalize, h]
  · intro pw size M c h
    simp [removalEffectEntry, h]

/-- C5 witness: the guarded row normalization is the identity on a zero row;
the unguarded divisions return the non-finite marker on zero sums. -/
theorem c5_zero_sum_guards_w :
    normalizeRows 2 (fun _ _ => (0 : ℚ)) 0 1 = 0 ∧
    markovRenormalize [(1 : ℚ), -1] = none ∧
    removalEffectEntry (fun _ _ _ => 0) 4 exampleMatrixC2 1 = none :=
  ⟨c5_zero_sum_guards.1 2 (fun _ _ => (0 : ℚ)) 0 (by simp [rowSum]) 1,
   c5_zero_sum_guards.2.1 [(1 : ℚ), -1] (by norm_num),
   c5_zero_sum_guards.2.2 (fun _ _ _ => 0) 4 exampleMatrixC2 1 rfl⟩

/-- C5 counterexample: the claim asserts the Markov per-journey
renormalization is guarded and yields a zero vector on a zero-sum input; in
the source, the raw vector of a non-converted journey (conversion value 0) is
all zeros and `np.array(x) / sum(x)` divides by zero, giving NaN (`none`)
rather than `some [0]`. -/
theorem c5_counterexample :
    markovRenormalize (markovRawVector (fun _ => 1/2)
      { channels := ["A"], converted := false, conversionValue := 0 }) = none ∧
    (none : Option (List ℚ)) ≠ some [0] := by
  refine ⟨by simp [markovRenormalize, markovRawVector], by simp⟩

/-- C6: calling `attribution_time_decay` when `self.time_till_conv` is `None`
prints the diagnostic but then raises `UnboundLocalError`, because
`self.__time_decay = (channels_value, frame)` runs outside the `else` branch
that defines both locals; the call does not return normally as the claim
states. -/
theorem c6_time_decay_missing_timing_bug :
    attributionTimeDecayRun (1/2) 24
      [{ channels := ["A"], converted := true, conversionValue := 1 }] none =
      ([timeDecayDiagnostic],
       Except.error
         "UnboundLocalError: local variable referenced before assignment") := rfl

/-- C4: for the journey `["Direct", "Direct"]` with every touch equal to the
excluded channel `"Direct"`, the credit vector of
`attribution_last_click_non` places the full credit at the FIRST position,
`[1, 0]`, because `max([i if canal != X else 0, ...])` collapses to 0; the
claim (and the channel-aggregation branch of the same method, which falls
back to `canais[-1]`) says the last position, `[0, 1]`. -/
theorem c4_all_excluded_fallback_bug :
    lastClickNonVector "Direct"
      { channels := ["Direct", "Direct"], converted := true,
        conversionValue := 1 } = [1, 0] ∧
    ([(1 : ℚ), 0] : List ℚ) ≠ [0, 1] := by
  constructor
  · norm_num [lastClickNonVector, lastClickNonWeights, lastClickNonIdxs,
      pyEnumerate, pyMax, convInd, List.range_succ]
  · simp

/-- C8: an unsupported `conversion_value_type` makes `attribution_markov`
fail immediately with the descriptive `ValueError`, before the rest of the
method body (here an arbitrary state transformer) runs, leaving the model
state unchanged. -/
theorem c8_markov_invalid_value_type {α β : Type} (cvt : String)
    (rest : α → α × β) (s : α) (h : cvt ∉ allowedConversionValueTypes) :
    attributionMarkovGuard cvt rest s =
      (s, Except.error conversionValueTypeError) := by
  simp [attributionMarkovGuard, h]

/-- C8 witness: the guard at the unsupported value `"percentage"`. -/
theorem c8_markov_invalid_value_type_w :
    attributionMarkovGuard "percentage" (fun s : ℕ => (s + 1, true)) 0 =
      (0, Except.error conversionValueTypeError) :=
  c8_markov_invalid_value_type "percentage" (fun s : ℕ => (s + 1, true)) 0
    (by decide)

/-- C7: the position-based credit vector of a converted journey gives all
credit to the single touch of a length-1 journey; `f + m/2` of the value to
the first and `l + m/2` to the last touch of a length-2 journey; and for
length `n ≥ 3` gives `f` of the value to the first touch, `f` to the last
touch, and splits `m` evenly over the `n - 2` middle touches. -/
theorem c7_position_based_branches (f m l : ℚ) (j : Journey)
    (hconv : j.converted = true) :
    (j.channels.length = 1 →
      positionBasedVector f m l j = [j.conversionValue]) ∧
    (j.channels.length = 2 →
      positionBasedVector f m l j =
        [(f + m / 2) * j.conversionValue, (l + m / 2) * j.conversionValue]) ∧
    (3 ≤ j.channels.length →
      positionBasedVector f m l j =
        [f * j.conversionValue] ++
        List.replicate (j.channels.length - 2)
          (m / ((j.channels.length - 2 : ℕ) : ℚ) * j.conversionValue) ++
        [f * j.conversionValue]) := by
  have hx : convInd j = 1 := by simp [convInd, hconv]
  refine ⟨?_, ?_, ?_⟩
  · intro h1
    simp [positionBasedVector, positionBasedWeights, h1, hx]
  · intro h2
    simp [positionBasedVector, positionBasedWeights, h2, hx]
  · intro h3
    have hn1 : j.channels.length ≠ 1 := by omega
    have hn2 : j.channels.length ≠ 2 := by omega
    simp [positionBasedVector, positionBasedWeights, hn1, hn2, hx,
      List.map_append, List.map_replicate]

/-- C7 witness: the three branches at journeys of lengths 1, 2 and 3 with
weights `(2/5, 1/5, 2/5)` and conversion value 10. -/
theorem c7_position_based_branches_w :
    positionBasedVector (2/5) (1/5) (2/5)
      { channels := ["A"], converted := true, conversionValue := 10 } =
      [(10 : ℚ)] ∧
    positionBasedVector (2/5) (1/5) (2/5)
      { channels := ["A", "B"], converted := true, conversionValue := 10 } =
      [(2/5 + 1/5/2) * 10, (2/5 + 1/5/2) * 10] ∧
    positionBasedVector (2/5) (1/5) (2/5)
      { channels := ["A", "B", "C"], converted := true,
        conversionValue := 10 } =
      [(2/5 : ℚ) * 10] ++ List.replicate 1 ((1/5 : ℚ) / ((1 : ℕ) : ℚ) * 10) ++
        [(2/5 : ℚ) * 10] :=
  ⟨(c7_position_based_branches (2/5) (1/5) (2/5)
      { channels := ["A"], converted := true, conversionValue := 10 } rfl).1
      (by decide),
   (c7_position_based_branches (2/5) (1/5) (2/5)
      { channels := ["A", "B"], converted := true, conversionValue := 10 }
      rfl).2.1 (by decide),
   (c7_position_based_branches (2/5) (1/5) (2/5)
      { channels := ["A", "B", "C"], converted := true, conversionValue := 10 }
      rfl).2.2 (by decide)⟩

/-- C9: with the default `exclude_models=None` every per-model guard
`if exclude_models and ...` of `attribution_all_models` is falsy, so no model
runs at all and the method returns `self.group_by_channels_models` unchanged;
a model runs exactly when it is in the `model_type` pool and `exclude_models`
is a non-empty list not containing its name. -/
theorem c9_all_models_dispatch :
    (∀ modelType (effects : String → Option AggTable → Option AggTable) t,
      modelsRun modelType none = [] ∧
      attributionAllModels modelType none effects t = t) ∧
    (∀ modelType excl name,
      name ∈ modelsRun modelType (some excl) ↔
        (name ∈ modelPool modelType ∧ excl ≠ [] ∧ name ∉ excl)) := by
  constructor
  · intro mt effects t
    have h0 : modelsRun mt none = [] := by
      simp [modelsRun, shouldRunModel]
    exact ⟨h0, by simp [attributionAllModels, h0]⟩
  · intro mt excl name
    simp [modelsRun, List.mem_filter, shouldRunModel, and_assoc]

/-- C9 witness: the default `None` runs nothing and leaves the table alone,
while a non-empty exclusion list runs exactly the models it does not name. -/
theorem c9_all_models_dispatch_w :
    modelsRun "all" none = [] ∧
    attributionAllModels "all" none (fun _ t => t) none = none ∧
    "attribution_linear" ∈ modelsRun "all" (some ["attribution_markov"]) :=
  ⟨(c9_all_models_dispatch.1 "all" (fun _ t => t) none).1,
   (c9_all_models_dispatch.1 "all" (fun _ t => t) none).2,
   (c9_all_models_dispatch.2 "all" ["attribution_markov"]
      "attribution_linear").mpr ⟨by decide, by decide, by decide⟩⟩

/-- Python substring containment holds exactly when the left string occurs as
a contiguous slice of the right string. -/
theorem pyIn_iff (a b : String) :
    pyIn a b = true ↔ ∃ pre post : List Char, b.data = pre ++ a.data ++ post := by
  rw [pyIn, List.any_eq_true]
  constructor
  · rintro ⟨i, hi, hbeq⟩
    have heq : (b.data.drop i).take a.data.length = a.data := by
      simpa using hbeq
    have hsplit : b.data.drop i = a.data ++ (b.data.drop i).drop a.data.length := by
      conv_lhs => rw [← List.take_append_drop a.data.length (b.data.drop i)]
      rw [heq]
    refine ⟨b.data.take i, (b.data.drop i).drop a.data.length, ?_⟩
    calc b.data = b.data.take i ++ b.data.drop i :=
          (List.take_append_drop i b.data).symm
      _ = b.data.take i ++ (a.data ++ (b.data.drop i).drop a.data.length) :=
          congrArg (fun t => b.data.take i ++ t) hsplit
      _ = b.data.take i ++ a.data ++ (b.data.drop i).drop a.data.length :=
          (List.append_assoc _ _ _).symm
  · rintro ⟨pre, post, hb⟩
    refine ⟨pre.length, ?_, ?_⟩
    · apply List.mem_range.mpr
      have hlen : b.data.length = pre.length + (a.data.length + post.length) := by
        simp [hb]
      omega
    · have hdrop : b.data.drop pre.length = a.data ++ post := by
        rw [hb, List.append_assoc]
        exact List.drop_left pre (a.data ++ post)
      rw [hdrop, List.take_left]
      simp

/-- C10: a channel's boolean membership column in the coalitions matrix is
computed by substring containment over the member labels, not by equality:
the column is true exactly when the channel label occurs as a contiguous
slice of some member label.  In particular `"Google"` is marked present in
the coalition `["Google Search"]` even though it is not a member. -/
theorem c10_coalition_membership_substring :
    (∀ channel combination, coalitionColumn channel combination = true ↔
      ∃ s ∈ combination, ∃ pre post : List Char,
        s.data = pre ++ channel.data ++ post) ∧
    coalitionColumn "Google" ["Google Search"] = true ∧
    "Google" ∉ (["Google Search"] : List String) := by
  refine ⟨?_, by decide, by decide⟩
  intro c comb
  rw [coalitionColumn, List.any_eq_true]
  exact ⟨fun ⟨s, hs, h⟩ => ⟨s, hs, (pyIn_iff c s).mp h⟩,
    fun ⟨s, hs, h⟩ => ⟨s, hs, (pyIn_iff c s).mpr h⟩⟩

/-- C2 (amended): for every non-synthetic channel index `c` (the loop range
`1 <= c < size - 2`), the counterfactual matrix of `removal_effect` is the
original matrix with the edges INTO the channel redirected entirely into the
null state: the channel's column is added to the null column and zeroed,
every other entry is unchanged.  The removal effect of `c` is 1 minus the
ratio of the counterfactual absorption probability to the original absorption
probability, whenever the original absorption is nonzero. -/
theorem c2_removal_effect_structure
    (powerInf : (ℕ → ℕ → ℚ) → ℕ → ℕ → ℚ) (size c : ℕ) (M : ℕ → ℕ → ℚ)
    (hc1 : 1 ≤ c) (hc2 : c < size - 2) :
    (∀ i, counterfactualMatrix size c M i (size - 2) =
        M i (size - 2) + M i c ∧
      counterfactualMatrix size c M i c = 0 ∧
      (∀ jj, jj ≠ c → jj ≠ size - 2 →
        counterfactualMatrix size c M i jj = M i jj)) ∧
    (calcTotalConversion powerInf size M ≠ 0 →
      removalEffectEntry powerInf size M c =
        some (1 -
          calcTotalConversion powerInf size (counterfactualMatrix size c M) /
          calcTotalConversion powerInf size M)) := by
  have hcne : c ≠ size - 2 := by omega
  constructor
  · intro i
    refine ⟨by simp [counterfactualMatrix], by simp [counterfactualMatrix, hcne], ?_⟩
    intro jj h1 h2
    simp [counterfactualMatrix, h1, h2]
  · intro habs
    simp [removalEffectEntry, conversionsEntry, habs, hc1, hc2]

/-- C2 witness: the structure theorem at the concrete four-state matrix,
channel index 1, with a constant-one stand-in for the infinite matrix
power. -/
theorem c2_removal_effect_structure_w :
    counterfactualMatrix 4 1 exampleMatrixC2 0 (4 - 2) =
      exampleMatrixC2 0 (4 - 2) + exampleMatrixC2 0 1 ∧
    removalEffectEntry (fun _ _ _ => 1) 4 exampleMatrixC2 1 =
      some (1 -
        calcTotalConversion (fun _ _ _ => 1) 4
          (counterfactualMatrix 4 1 exampleMatrixC2) /
        calcTotalConversion (fun _ _ _ => 1) 4 exampleMatrixC2) :=
  ⟨((c2_removal_effect_structure (fun _ _ _ => 1) 4 1 exampleMatrixC2
      (by decide) (by decide)).1 0).1,
   (c2_removal_effect_structure (fun _ _ _ => 1) 4 1 exampleMatrixC2
      (by decide) (by decide)).2 one_ne_zero⟩

/-- C2 counterexample: the claim says the counterfactual matrix redirects the
channel's OUTGOING edges into the null state.  On the concrete matrix with
transitions `start -> A` and `A -> conversion` and channel index 1 (channel
`A`), the code's counterfactual differs from that description: the code
redirects the edge `start -> A` into null (column redirection) and keeps the
outgoing edge `A -> conversion`, while the outgoing-redirect matrix keeps
`start -> A` and removes `A -> conversion`. -/
theorem c2_counterexample :
    counterfactualMatrix 4 1 exampleMatrixC2 0 1 = 0 ∧
    counterfactualOutgoing 4 1 exampleMatrixC2 0 1 = 1 ∧
    counterfactualMatrix 4 1 exampleMatrixC2 1 3 = 1 ∧
    counterfactualOutgoing 4 1 exampleMatrixC2 1 3 = 0 := by
  refine ⟨?_, ?_, ?_, ?_⟩ <;>
    norm_num [counterfactualMatrix, counterfactualOutgoing, exampleMatrixC2]

/-- C3 (amended): merging a model frame into the aggregate table always adds
one column and never removes one; when the model name already has a column,
pandas renames the clashing pair with the `_x` and `_y` suffixes instead of
overwriting, so a repeated run duplicates the column under suffixed names.
The channel set of the merged table is the union of the table's and the
frame's channels, and a channel missing from the frame contributes the fill
value 0. -/
theorem c3_merge_behavior (t : AggTable) (name : String)
    (frame : List (String × ℚ)) :
    (mergeOuter t name frame).colNames.length = t.colNames.length + 1 ∧
    (name ∈ t.colNames →
      (mergeOuter t name frame).colNames =
        t.colNames.map (fun cn => if cn = name then cn ++ "_x" else cn) ++
          [name ++ "_y"]) ∧
    (∀ ch, ch ∈ (mergeOuter t name frame).rows.map Prod.fst ↔
      (ch ∈ t.rows.map Prod.fst ∨ ch ∈ frame.map Prod.fst)) ∧
    (∀ ch, ch ∉ frame.map Prod.fst → lookupVal frame ch = 0) := by
  refine ⟨by simp [mergeOuter], ?_, ?_, ?_⟩
  · intro h
    simp [mergeOuter, h]
  · intro ch
    simp [mergeOuter, List.map_map, Function.comp, mem_sortedKeys,
      List.mem_append]
  · intro ch h
    have hfind : frame.find? (fun p => p.1 = ch) = none := by
      rw [List.find?_eq_none]
      intro p hp
      simp only [decide_eq_true_eq]
      intro hKey
      exact h (List.mem_map.mpr ⟨p, hp, hKey⟩)
    simp [lookupVal, hfind]

/-- C3 witness: the merge behavior at a concrete one-column table whose
column name clashes with the merged frame. -/
theorem c3_merge_behavior_w :
    (mergeOuter { colNames := ["m"], rows := [("A", [(1 : ℚ)])] } "m"
      [("B", 2)]).colNames.length = 2 ∧
    (mergeOuter { colNames := ["m"], rows := [("A", [(1 : ℚ)])] } "m"
      [("B", 2)]).colNames = ["m_x", "m_y"] ∧
    ("B" ∈ (mergeOuter { colNames := ["m"], rows := [("A", [(1 : ℚ)])] } "m"
      [("B", 2)]).rows.map Prod.fst) ∧
    lookupVal [("B", (2 : ℚ))] "C" = 0 :=
  ⟨(c3_merge_behavior { colNames := ["m"], rows := [("A", [(1 : ℚ)])] } "m"
      [("B", 2)]).1,
   (c3_merge_behavior { colNames := ["m"], rows := [("A", [(1 : ℚ)])] } "m"
      [("B", 2)]).2.1 (by decide),
   ((c3_merge_behavior { colNames := ["m"], rows := [("A", [(1 : ℚ)])] } "m"
      [("B", 2)]).2.2.1 "B").mpr (Or.inr (by decide)),
   (c3_merge_behavior { colNames := ["m"], rows := [("A", [(1 : ℚ)])] } "m"
      [("B", 2)]).2.2.2 "C" (by decide)⟩

/-- C3 counterexample: running the linear model twice on the same two
journeys does not overwrite the model's column: the second outer merge
produces the two suffixed columns `_x` and `_y`, so the claimed overwrite
(leaving the single original column name) is false. -/
theorem c3_counterexample :
    (runLinear (some (runLinear none journeysC3)) journeysC3).colNames =
      ["attribution_linear_heuristic_x", "attribution_linear_heuristic_y"] ∧
    (runLinear (some (runLinear none journeysC3)) journeysC3).colNames ≠
      [linearModelName] := by
  refine ⟨by decide, by decide⟩

/-- C1 (amended): every per-journey credit vector has the same length as the
journey's channel sequence.  The first-click, last-click,
last-click-excluding-channel, linear and time-decay vectors sum to
`conversion_value` times the integer conversion flag (so to the conversion
value when converted and to 0 otherwise).  The position-based vector sums to
that amount only for length-1 journeys; for length 2 it sums to `(f + m + l)`
times that amount and for length at least 3 to `(2 * f + m)` times it, which
equals the conversion value only when the corresponding weight sum is 1.  The
Markov redistributed vector is renormalized to sum to 1, not to the
conversion value, whenever its raw sum is nonzero. -/
theorem c1_credit_vector_conservation
    (j : Journey) (x : String) (d freq f m l : ℚ) (ts : List ℚ)
    (chmap : String → ℚ)
    (hne : j.channels ≠ []) (hd : 0 < d)
    (hts : ts.length = j.channels.length) :
    ((firstClickVector j).length = j.channels.length ∧
     (lastClickVector j).length = j.channels.length ∧
     (lastClickNonVector x j).length = j.channels.length ∧
     (linearVector j).length = j.channels.length ∧
     (positionBasedVector f m l j).length = j.channels.length ∧
     (timeDecayVector d freq ts j).length = j.channels.length ∧
     (markovRawVector chmap j).length = j.channels.length) ∧
    ((firstClickVector j).sum = j.conversionValue * convInd j ∧
     (lastClickVector j).sum = j.conversionValue * convInd j ∧
     (lastClickNonVector x j).sum = j.conversionValue * convInd j ∧
     (linearVector j).sum = j.conversionValue * convInd j ∧
     (timeDecayVector d freq ts j).sum = j.conversionValue * convInd j) ∧
    ((j.channels.length = 1 →
        (positionBasedVector f m l j).sum = j.conversionValue * convInd j) ∧
     (j.channels.length = 2 →
        (positionBasedVector f m l j).sum =
          (f + m + l) * (j.conversionValue * convInd j)) ∧
     (3 ≤ j.channels.length →
        (positionBasedVector f m l j).sum =
          (2 * f + m) * (j.conversionValue * convInd j))) ∧
    (∀ xs : List ℚ, xs.sum ≠ 0 →
      ∃ ys, markovRenormalize xs = some ys ∧ ys.length = xs.length ∧
        ys.sum = 1) := by
  have hn : 1 ≤ j.channels.length := List.length_pos.mpr hne
  have hM : pyMax (lastClickNonIdxs x j.channels) < j.channels.length := by
    apply foldl_max_lt _ _ _ (by omega)
    intro y hy
    rcases List.mem_map.mp hy with ⟨p, hp, rfl⟩
    have hp1 : p.1 < j.channels.length := by
      have := (List.of_mem_zip hp).1
      exact List.mem_range.mp this
    by_cases hpx : p.2 ≠ x
    · simpa [hpx] using hp1
    · simp [hpx]
      omega
  have hw : lastClickNonWeights x j.channels =
      (List.range j.channels.length).map
        (fun i => if i = pyMax (lastClickNonIdxs x j.channels) then (1 : ℚ)
          else 0) := by
    rw [lastClickNonWeights, pyEnumerate,
      show (fun p : ℕ × String =>
          if p.1 = pyMax (lastClickNonIdxs x j.channels) then (1 : ℚ) else 0) =
        (fun i => if i = pyMax (lastClickNonIdxs x j.channels) then (1 : ℚ)
          else 0) ∘ Prod.fst from rfl,
      ← List.map_map, List.map_fst_zip]
    simp
  have htsne : ts ≠ [] := by
    intro h
    rw [h] at hts
    simp at hts
    omega
  have hS : 0 < (ts.map (timeDecayRawWeight d freq)).sum := by
    apply sum_pos_of_mem_pos _ (by simpa using htsne)
    intro y hy
    rcases List.mem_map.mp hy with ⟨t, ht, rfl⟩
    exact zpow_pos hd _
  refine ⟨⟨?_, ?_, ?_, ?_, ?_, ?_, ?_⟩, ⟨?_, ?_, ?_, ?_, ?_⟩, ⟨?_, ?_, ?_⟩, ?_⟩
  · simp only [firstClickVector, List.length_map, List.length_cons,
      List.length_replicate]
    omega
  · simp only [lastClickVector, List.length_map, List.length_append,
      List.length_replicate, List.length_cons, List.length_nil]
    omega
  · simp only [lastClickNonVector, List.length_map, lastClickNonWeights,
      pyEnumerate, List.length_zip, List.length_range]
    omega
  · simp [linearVector]
  · by_cases h1 : j.channels.length = 1
    · simp [positionBasedVector, positionBasedWeights, h1]
    · by_cases h2 : j.channels.length = 2
      · simp [positionBasedVector, positionBasedWeights, h1, h2]
      · simp only [positionBasedVector, positionBasedWeights, if_neg h1,
          if_neg h2, List.length_map, List.length_append,
          List.length_replicate, List.length_cons, List.length_nil]
        omega
  · simp only [timeDecayVector, timeDecayWeights, List.length_map]
    exact hts
  · simp [markovRawVector]
  · rw [firstClickVector, sum_map_scale]
    simp
  · rw [lastClickVector, sum_map_scale]
    simp
  · rw [lastClickNonVector, sum_map_scale, hw,
      sum_range_single _ _ _ hM, one_mul]
  · rw [linearVector, List.sum_replicate, nsmul_eq_mul, mul_comm,
      div_mul_cancel₀ _ (show (j.channels.length : ℚ) ≠ 0 from
        Nat.cast_ne_zero.mpr (by omega))]
  · rw [timeDecayVector, sum_map_scale, timeDecayWeights,
      show (fun t => timeDecayRawWeight d freq t /
          (ts.map (timeDecayRawWeight d freq)).sum) =
        (fun y => y / (ts.map (timeDecayRawWeight d freq)).sum) ∘
          timeDecayRawWeight d freq from rfl,
      ← List.map_map, sum_map_div, div_self hS.ne', one_mul]
  · intro h1
    simp [positionBasedVector, positionBasedWeights, h1]
  · intro h2
    have hsum2 : (positionBasedWeights f m l j.channels).sum = f + m + l := by
      rw [positionBasedWeights, if_neg (by omega), if_pos h2]
      simp
      ring
    rw [positionBasedVector, sum_map_scale, hsum2]
  · intro h3
    have hk0 : ((j.channels.length - 2 : ℕ) : ℚ) ≠ 0 :=
      Nat.cast_ne_zero.mpr (by omega)
    have hsum3 : (positionBasedWeights f m l j.channels).sum = 2 * f + m := by
      rw [positionBasedWeights, if_neg (by omega), if_neg (by omega),
        List.sum_append, List.sum_append,
        List.sum_replicate (j.channels.length - 2)
          (m / ((j.channels.length - 2 : ℕ) : ℚ)), nsmul_eq_mul, mul_comm,
        div_mul_cancel₀ _ hk0]
      simp
      ring
    rw [positionBasedVector, sum_map_scale, hsum3]
  · intro xs hxs
    refine ⟨xs.map (fun v => v / xs.sum), by simp [markovRenormalize, hxs],
      by simp, ?_⟩
    rw [sum_map_div, div_self hxs]

/-- C1 witness: the amended conservation statement at a concrete converted
length-2 journey with value 10, decay 1/2, frequency 24, timing `[3, 1]` and
weights `(2/5, 1/5, 2/5)`. -/
theorem c1_credit_vector_conservation_w :
    (firstClickVector journeyC1).sum =
      journeyC1.conversionValue * convInd journeyC1 ∧
    (lastClickNonVector "Direct" journeyC1).length =
      journeyC1.channels.length :=
  ⟨(c1_credit_vector_conservation journeyC1
      "Direct" (1/2) 24 (2/5) (1/5) (2/5) [3, 1] (fun _ => 1)
      (by decide) (by norm_num) (by decide)).2.1.1,
   (c1_credit_vector_conservation journeyC1
      "Direct" (1/2) 24 (2/5) (1/5) (2/5) [3, 1] (fun _ => 1)
      (by decide) (by norm_num) (by decide)).1.2.2.1⟩

/-- C1 counterexample: for the position-based model with the normalized but
asymmetric weight triple `(1/2, 1/5, 3/10)` and a converted three-touch
journey of conversion value 1, the per-journey credit vector sums to 6/5, not
to the conversion value 1, because the source assigns the FIRST weight to
both end positions. -/
theorem c1_counterexample :
    (positionBasedVector (1/2) (1/5) (3/10)
      { channels := ["A", "B", "C"], converted := true,
        conversionValue := 1 }).sum = 6/5 ∧
    ((6 : ℚ)/5) ≠ 1 ∧ ((1 : ℚ)/2) + 1/5 + 3/10 = 1 := by
  refine ⟨?_, by norm_num, by norm_num⟩
  norm_num [positionBasedVector, positionBasedWeights, convInd]

end MAMSpec
